import Mathlib

/-!
Verification development for the github-cms-sync repository.

The Go source is shallowly embedded: pure functions become Lean functions,
Go maps become association lists with lookup semantics, Go `time.Time`
becomes a `Nat` timestamp, Go `int` becomes `Int` (or `Nat` where the Go
value is an index/length), fallible calls become `Except String`, and
network calls are abstracted as oracle parameters.
-/

/-! ## String helpers (models of Go `strings` functions) -/

/-- Model of `strings.ToLower` (character-wise lowercase). -/
def strToLower (s : String) : String :=
  String.mk (s.toList.map Char.toLower)

/-- Boolean test that `pat` occurs at the head of `l` (helper for substring search). -/
def leadsWith : List Char → List Char → Bool
  | [], _ => true
  | _ :: _, [] => false
  | a :: as, b :: bs => a == b && leadsWith as bs

/-- Boolean test that `pat` occurs somewhere inside `l`. -/
def listContains (pat : List Char) : List Char → Bool
  | [] => leadsWith pat []
  | c :: rest => leadsWith pat (c :: rest) || listContains pat rest

/-- Model of Go `strings.Contains s pat`. -/
def strContains (s pat : String) : Bool :=
  listContains pat.toList s.toList

/-! ## mapper package (`internal/mapper/mapper.go`) -/

/-- Model of the external `github.Repo` type (collaborator SDK): the fields the
repository reads — name, HTML URL, optional homepage, size, pushed-at
timestamp, fork/archived markers. -/
structure Repo where
  Name : String
  HTMLURL : String
  Homepage : Option String
  Size : Int
  PushedAt : Nat
  Fork : Bool
  Archived : Bool

/-- RawProject holds the raw data from GitHub before AI enrichment
(`mapper.RawProject`). -/
structure RawProject where
  Name : String
  Slug : String
  GitHubURL : String
  LiveURL : String
  Languages : List String
  ReadmeRaw : String
  RepoSize : Int
  PushedAt : Nat

/-- Model of `mapper.sortedLanguages`: language names sorted by byte count
descending. The Go map is modelled as an association list; `sort.Slice`
with a strict greater-than comparator is modelled by a sort with the
corresponding non-strict comparator. -/
def sortedLanguages (languages : List (String × Nat)) : List String :=
  (languages.mergeSort (fun a b => decide (b.2 ≤ a.2))).map (fun l => l.1)

/-- Model of `mapper.ToRawProject`: converts a repo with its languages and
README into a RawProject; a nil homepage pointer becomes the empty string. -/
def ToRawProject (repo : Repo) (languages : List (String × Nat)) (readme : String) : RawProject :=
  { Name := repo.Name
    Slug := repo.Name
    GitHubURL := repo.HTMLURL
    LiveURL := repo.Homepage.getD ""
    Languages := sortedLanguages languages
    ReadmeRaw := readme
    RepoSize := repo.Size
    PushedAt := repo.PushedAt }

/-- Model of `mapper.FilterRepos`: removes forks, archived repos, and the
profile README repo (name case-insensitively equal to the username). The
Go loop with `continue` is a filter preserving order. -/
def FilterRepos (repos : List Repo) (username : String) : List Repo :=
  let profileRepo := strToLower username
  repos.filter (fun r => !(r.Fork || r.Archived) && !(strToLower r.Name == profileRepo))

/-! ## contentful types (`internal/contentful/types.go`) -/

/-- Project represents a project entry for the CMS (`contentful.Project`).
The `ShortDescription` field is the one populated by the enricher's
construction of the struct literal. `PushedAt` carries the json tag `-`
in the source, so it is never encoded or decoded. -/
structure Project where
  Name : String
  Slug : String
  ShortDescription : String
  Description : String
  LongDescription : String
  GithubURL : String
  Technologies : List String
  Highlights : List String
  Featured : Bool
  Gradient : String
  Category : String
  PushedAt : Nat

/-! ## enricher package (`internal/enricher/gemini.go`) -/

/-- Model of the unexported `enrichedData` struct parsed from the model
response: one object per repository. -/
structure EnrichedData where
  Name : String
  ShortDescription : String
  Description : String
  LongDescription : String
  Technologies : List String
  Highlights : List String
  Category : String
  Gradient : String

/-- Maximum number of retries after the first enrichment attempt
(`enricher.maxRetries`). -/
def maxRetries : Nat := 3

/-- Rate-limit detection from `Enrich`: the error text contains the status
code "429" or the marker "RESOURCE_EXHAUSTED". -/
def isRateLimit (e : String) : Bool :=
  strContains e "429" || strContains e "RESOURCE_EXHAUSTED"

/-- Outcome of the enrichment retry loop: how many generation calls were
made, and either the raw response text or the error returned. -/
structure EnrichOutcome where
  calls : Nat
  outcome : Except String String

/-- One Project built from a matched (RawProject, enrichedData) pair, as in
the construction loop of `Enrich` (lines 110-124): identity fields come
from the raw project, generated fields from the parsed response entry,
and the featured flag starts false. -/
def mkEnrichedProject (raw : RawProject) (data : EnrichedData) : Project :=
  { Name := data.Name
    Slug := raw.Slug
    ShortDescription := data.ShortDescription
    Description := data.Description
    LongDescription := data.LongDescription
    GithubURL := raw.GitHubURL
    Technologies := data.Technologies
    Highlights := data.Highlights
    Featured := false
    Gradient := data.Gradient
    Category := data.Category
    PushedAt := raw.PushedAt }

/-- Positional matching loop of `Enrich` (lines 103-125): for each input
index `i`, an output is appended exactly when `i < dataList.length`, built
from `projects[i]` and `dataList[i]`; inputs beyond the response length are
skipped, response entries beyond the input length are never read. -/
def enrichMatch (projects : List RawProject) (dataList : List EnrichedData) : List Project :=
  (projects.zip dataList).map (fun p => mkEnrichedProject p.1 p.2)

/-- Retry loop of `Enrich` (lines 65-94), with the generation call modelled
as an oracle `gen` from attempt number to result. Mirrors the Go control
flow: on success break (but if the response is empty and a previous error
was recorded, the exhaustion error is still reported); on a rate-limit
error record it and retry; on any other error fail immediately with a
`gemini:`-wrapped error. `fuel` counts the remaining loop iterations,
starting at `maxRetries + 1`. -/
def enrichLoopFrom (gen : Nat → Except String String) (lastErr : Option String)
    (calls attempt : Nat) : Nat → EnrichOutcome
  | 0 =>
    match lastErr with
    | some e => ⟨calls, Except.error ("gemini after " ++ toString maxRetries ++ " retries: " ++ e)⟩
    | none => ⟨calls, Except.ok ""⟩
  | fuel + 1 =>
    match gen attempt with
    | Except.ok s =>
      match lastErr with
      | some e =>
        if s = "" then
          ⟨calls + 1, Except.error ("gemini after " ++ toString maxRetries ++ " retries: " ++ e)⟩
        else ⟨calls + 1, Except.ok s⟩
      | none => ⟨calls + 1, Except.ok s⟩
    | Except.error e =>
      if isRateLimit e then enrichLoopFrom gen (some e) (calls + 1) (attempt + 1) fuel
      else ⟨calls + 1, Except.error ("gemini: " ++ e)⟩

/-- The retry loop of `Enrich`, entered at attempt 0 with no recorded error. -/
def enrichRetry (gen : Nat → Except String String) : EnrichOutcome :=
  enrichLoopFrom gen none 0 0 (maxRetries + 1)

/-! ## heuristic package (`internal/heuristic/featured.go`) -/

/-- The `sort.Slice` call of `ApplyFeatured`: sort descending by `PushedAt`.
The Go comparator is strict `After`; any correct sort for it yields a list
non-increasing in `PushedAt`, modelled by sorting with the corresponding
non-strict comparator. -/
def sortByPushedDesc (projects : List Project) : List Project :=
  projects.mergeSort (fun a b => decide (b.PushedAt ≤ a.PushedAt))

/-- The featured-marking loop of `ApplyFeatured`: entry at index `i` gets
`Featured := i < maxFeatured`, with `i` counted from the accumulator. -/
def setFeaturedFrom (maxFeatured : Int) (i : Nat) : List Project → List Project
  | [] => []
  | p :: rest => { p with Featured := decide ((i : Int) < maxFeatured) }
      :: setFeaturedFrom maxFeatured (i + 1) rest

/-- Model of `heuristic.ApplyFeatured`: sorts projects by PushedAt
descending, truncates to `maxTotal` when longer, then marks the top
`maxFeatured` as featured and the rest as not featured. The Go `int`
parameters are modelled as `Int`. -/
def ApplyFeatured (projects : List Project) (maxFeatured maxTotal : Int) : List Project :=
  let sorted := sortByPushedDesc projects
  let truncated := if (sorted.length : Int) > maxTotal then sorted.take maxTotal.toNat else sorted
  setFeaturedFrom maxFeatured 0 truncated

/-- Erases the only field `ApplyFeatured` may rewrite, for frame statements. -/
def eraseFeatured (p : Project) : Project :=
  { p with Featured := false }

/-! ## contentful client (`internal/contentful/client.go`) -/

/-- Model of a JSON value, standing for the Go `interface{}` values produced
by `encoding/json`. -/
inductive JsonVal where
  | null : JsonVal
  | bool (b : Bool) : JsonVal
  | num (n : Int) : JsonVal
  | str (s : String) : JsonVal
  | arr (items : List JsonVal) : JsonVal
  | obj (fields : List (String × JsonVal)) : JsonVal

/-- Model of the `Sys` metadata of an SDK `EntryItem` (id and version). -/
structure EntrySys where
  ID : String
  Version : Int

/-- Model of the SDK `EntryItem`: system metadata plus the field map,
modelled as an association list with lookup semantics. -/
structure EntryItem where
  Sys : EntrySys
  Fields : List (String × JsonVal)

/-- ProjectsResult holds the fetched projects along with entry metadata
needed for the fetch-mutate-put update pattern (`contentful.ProjectsResult`). -/
structure ProjectsResult where
  Projects : List Project
  EntryID : String
  Version : Int
  RawFields : List (String × JsonVal)

/-- Decode one string-typed struct field from a JSON object, as
`encoding/json` does: an absent key or a JSON null leaves the zero value,
a string decodes to itself, anything else is a type error. -/
def decodeStrField (kvs : List (String × JsonVal)) (k : String) : Except String String :=
  match List.lookup k kvs with
  | none => Except.ok ""
  | some JsonVal.null => Except.ok ""
  | some (JsonVal.str s) => Except.ok s
  | some _ => Except.error ("cannot unmarshal field " ++ k)

/-- Decode one bool-typed struct field from a JSON object (same conventions
as `decodeStrField`). -/
def decodeBoolField (kvs : List (String × JsonVal)) (k : String) : Except String Bool :=
  match List.lookup k kvs with
  | none => Except.ok false
  | some JsonVal.null => Except.ok false
  | some (JsonVal.bool b) => Except.ok b
  | some _ => Except.error ("cannot unmarshal field " ++ k)

/-- Decode a JSON value as one element of a `[]string`. -/
def decodeStrItem : JsonVal → Except String String
  | JsonVal.null => Except.ok ""
  | JsonVal.str s => Except.ok s
  | _ => Except.error "cannot unmarshal array element"

/-- Decode one `[]string`-typed struct field from a JSON object. -/
def decodeStrListField (kvs : List (String × JsonVal)) (k : String) :
    Except String (List String) :=
  match List.lookup k kvs with
  | none => Except.ok []
  | some JsonVal.null => Except.ok []
  | some (JsonVal.arr items) => items.mapM decodeStrItem
  | some _ => Except.error ("cannot unmarshal field " ++ k)

/-- Decode a JSON value into a `Project`, following the json tags of
`contentful.Project` (`PushedAt` is tagged `-` and never decoded). -/
def decodeProject : JsonVal → Except String Project
  | JsonVal.null =>
    Except.ok ⟨"", "", "", "", "", "", [], [], false, "", "", 0⟩
  | JsonVal.obj kvs => do
    let name ← decodeStrField kvs "name"
    let slug ← decodeStrField kvs "slug"
    let shortDescription ← decodeStrField kvs "shortDescription"
    let description ← decodeStrField kvs "description"
    let longDescription ← decodeStrField kvs "longDescription"
    let githubURL ← decodeStrField kvs "githubUrl"
    let technologies ← decodeStrListField kvs "technologies"
    let highlights ← decodeStrListField kvs "highlights"
    let featured ← decodeBoolField kvs "featured"
    let gradient ← decodeStrField kvs "gradient"
    let category ← decodeStrField kvs "category"
    Except.ok ⟨name, slug, shortDescription, description, longDescription, githubURL,
      technologies, highlights, featured, gradient, category, 0⟩
  | _ => Except.error "cannot unmarshal object"

/-- Decode a JSON value into a `[]contentful.Project` (the
`json.Unmarshal(contentBytes, &projects)` step of `GetProjects`): JSON
null gives the nil slice, an array decodes element-wise, anything else is
a type error. -/
def decodeProjects : JsonVal → Except String (List Project)
  | JsonVal.null => Except.ok []
  | JsonVal.arr items => items.mapM decodeProject
  | _ => Except.error "cannot unmarshal into projects"

/-- Locale selection of `GetProjects` (lines 58-64): prefer the `en-US`
key; otherwise take the value of whichever key comes first; an empty
locale map leaves the nil interface value, i.e. JSON null. -/
def localeContent (localeMap : List (String × JsonVal)) : JsonVal :=
  match List.lookup "en-US" localeMap with
  | some v => v
  | none =>
    match localeMap with
    | [] => JsonVal.null
    | (_, v) :: _ => v

/-- Model of `GetProjects` (lines 40-82) after the entry has been fetched:
the pair of the optional result and the optional error, mirroring the Go
`(*ProjectsResult, error)` return. An absent `content` field yields an
empty collection with identity and version and no error; a `content`
field that is not a JSON object yields identity and version together with
a decode error; a locale value that fails to decode into the project
collection yields a nil result and an error. -/
def getProjectsFromEntry (entry : EntryItem) : Option ProjectsResult × Option String :=
  match List.lookup "content" entry.Fields with
  | none => (some ⟨[], entry.Sys.ID, entry.Sys.Version, entry.Fields⟩, none)
  | some contentField =>
    match contentField with
    | JsonVal.obj localeMap =>
      match decodeProjects (localeContent localeMap) with
      | Except.ok projects => (some ⟨projects, entry.Sys.ID, entry.Sys.Version, entry.Fields⟩, none)
      | Except.error e => (none, some ("unmarshal projects: " ++ e))
    | _ => (some ⟨[], entry.Sys.ID, entry.Sys.Version, entry.Fields⟩,
        some "content field is not locale-wrapped")

/-- Encode a `Project` back to JSON per its json tags (used as the new
`content` value in `UpdateProjects`; `PushedAt` is tagged `-` and
omitted). -/
def encodeProject (p : Project) : JsonVal :=
  JsonVal.obj
    [("name", JsonVal.str p.Name),
     ("slug", JsonVal.str p.Slug),
     ("shortDescription", JsonVal.str p.ShortDescription),
     ("description", JsonVal.str p.Description),
     ("longDescription", JsonVal.str p.LongDescription),
     ("githubUrl", JsonVal.str p.GithubURL),
     ("technologies", JsonVal.arr (p.Technologies.map JsonVal.str)),
     ("highlights", JsonVal.arr (p.Highlights.map JsonVal.str)),
     ("featured", JsonVal.bool p.Featured),
     ("gradient", JsonVal.str p.Gradient),
     ("category", JsonVal.str p.Category)]

/-- Go map update modelled on association lists: copy all bindings and set
key `k` to `v`, keeping lookup semantics. -/
def setKey (m : List (String × JsonVal)) (k : String) (v : JsonVal) :
    List (String × JsonVal) :=
  (k, v) :: m.filter (fun p => !(p.1 == k))

/-- The write body of `UpdateProjects` (lines 89-95): a copy of all fields
read before, with only `content` replaced by the new collection wrapped
under the `en-US` locale key. -/
def buildUpdateFields (result : ProjectsResult) (projects : List Project) :
    List (String × JsonVal) :=
  setKey result.RawFields "content" (JsonVal.obj [("en-US", JsonVal.arr (projects.map encodeProject))])

/-- The request headers set by `UpdateProjects` (lines 110-112), including
the previously-read version as the `X-Contentful-Version` precondition. -/
def updateHeaders (token : String) (result : ProjectsResult) : List (String × String) :=
  [("Authorization", "Bearer " ++ token),
   ("Content-Type", "application/vnd.contentful.management.v1+json"),
   ("X-Contentful-Version", toString result.Version)]

/-- Response handling of `UpdateProjects` (lines 120-133): a non-200 status
is an error carrying the status code and the response body; a 200 status
returns the decoded new version, or a decode error when the body cannot
be decoded. -/
def updateResponse (status : Int) (respBody : String) (decodedVersion : Option Int) :
    Except String Int :=
  if status ≠ 200 then
    Except.error ("CMA update failed (" ++ toString status ++ "): " ++ respBody)
  else
    match decodedVersion with
    | some v => Except.ok v
    | none => Except.error "decode update response"

/-! ## config package (`internal/config/config.go`) -/

/-- Configuration loaded from environment variables (`config.Config`). -/
structure Config where
  GitHubUsername : String
  GitHubToken : String
  SpaceID : String
  CMAToken : String
  EntryID : String
  GeminiAPIKey : String
  MaxFeatured : Int
  MaxProjects : Int
  ForceUpdate : Bool

/-- Digit-accumulating helper for `strconv.Atoi`. -/
def digitsToNatAux : List Char → Nat → Option Nat
  | [], acc => some acc
  | c :: cs, acc =>
    if c.isDigit then digitsToNatAux cs (acc * 10 + (c.toNat - 48))
    else none

/-- Parse a non-empty all-digit character list as a natural number. -/
def digitsToNat : List Char → Option Nat
  | [] => none
  | c :: cs => digitsToNatAux (c :: cs) 0

/-- Model of `strconv.Atoi`: an optional sign followed by at least one
decimal digit; anything else fails. -/
def parseAtoi (s : String) : Option Int :=
  match s.toList with
  | [] => none
  | c :: cs =>
    if c = Char.ofNat 43 then (digitsToNat cs).map Int.ofNat
    else if c = Char.ofNat 45 then (digitsToNat cs).map (fun n => -(n : Int))
    else (digitsToNat (c :: cs)).map Int.ofNat

/-- Model of `strconv.ParseBool`: the exact accepted spellings; anything
else is an error (and the Go caller that ignores the error observes the
zero value `false`). -/
def parseBool (s : String) : Option Bool :=
  if s = "1" || s = "t" || s = "T" || s = "TRUE" || s = "true" || s = "True" then some true
  else if s = "0" || s = "f" || s = "F" || s = "FALSE" || s = "false" || s = "False" then
    some false
  else none

/-- Model of `config.envInt`: a set, parseable value wins; an unset or
unparseable value silently falls back to the default. The environment is
an oracle from variable name to value, with `""` for unset, as
`os.Getenv` reports it. -/
def envInt (env : String → String) (key : String) (defaultVal : Int) : Int :=
  if env key ≠ "" then
    match parseAtoi (env key) with
    | some n => n
    | none => defaultVal
  else defaultVal

/-- Model of `config.Load`: reads the environment, defaults the username,
rejects a missing required variable with a descriptive error, and fills
the optional numeric and boolean settings via `envInt` and `ParseBool`
(whose error is discarded). -/
def Load (env : String → String) : Except String Config :=
  let githubUsername :=
    if env "GITHUB_USERNAME" = "" then "alberto-moreno-sa" else env "GITHUB_USERNAME"
  if env "CONTENTFUL_SPACE_ID" = "" then Except.error "CONTENTFUL_SPACE_ID is required"
  else if env "CONTENTFUL_CMA_TOKEN" = "" then Except.error "CONTENTFUL_CMA_TOKEN is required"
  else if env "CONTENTFUL_ENTRY_ID" = "" then Except.error "CONTENTFUL_ENTRY_ID is required"
  else if env "GEMINI_API_KEY" = "" then Except.error "GEMINI_API_KEY is required"
  else Except.ok
    { GitHubUsername := githubUsername
      GitHubToken := env "GITHUB_TOKEN"
      SpaceID := env "CONTENTFUL_SPACE_ID"
      CMAToken := env "CONTENTFUL_CMA_TOKEN"
      EntryID := env "CONTENTFUL_ENTRY_ID"
      GeminiAPIKey := env "GEMINI_API_KEY"
      MaxFeatured := envInt env "MAX_FEATURED" 5
      MaxProjects := envInt env "MAX_PROJECTS" 15
      ForceUpdate := (parseBool (env "FORCE_UPDATE")).getD false }

/-! ## build log recording (`cmd/sync.go`) -/

/-- Model of the SDK `BuildLogEntry`: one audit record per pipeline run. -/
structure BuildLogEntry where
  Service : String
  Timestamp : String
  TriggeredBy : String
  ForceUpdate : Bool
  TranslationUsed : Bool
  NewAdded : Int
  TotalAfterSync : Int
  Status : String

/-- The service name used by `recordBuildLog`. -/
def serviceName : String := "github-cms-sync"

/-- The audit-list construction of `recordBuildLog` (lines 87-98):
partition existing entries into this service's own and others', cap the
own entries to the last 2 when there are at least 3, and append others,
capped own entries, and the new entry in that order. -/
def buildAuditList (existing : List BuildLogEntry) (entry : BuildLogEntry) :
    List BuildLogEntry :=
  let ownEntries := existing.filter (fun x => x.Service == serviceName)
  let otherEntries := existing.filter (fun x => !(x.Service == serviceName))
  let ownCapped :=
    if ownEntries.length ≥ 3 then ownEntries.drop (ownEntries.length - 2) else ownEntries
  otherEntries ++ (ownCapped ++ [entry])

/-! ## detail collection (`internal/syncer/syncer.go`, fetchDetails) -/

/-- The per-repo work of one `fetchDetails` worker: a failed language fetch
substitutes the empty map, a failed readme fetch leaves the zero-value
empty string, then the repo is converted with `ToRawProject`. The two
fetches are modelled as oracles. -/
def fetchOne (getLangs : Repo → Except String (List (String × Nat)))
    (getReadme : Repo → Except String String) (r : Repo) : RawProject :=
  let languages := match getLangs r with | Except.ok m => m | Except.error _ => []
  let readme := match getReadme r with | Except.ok s => s | Except.error _ => ""
  ToRawProject r languages readme

/-- Model of `fetchDetails`: the workers run concurrently and append under
a mutex, so the results arrive in some completion order — modelled by an
explicit `completionOrder` permutation of the input repos. The `firstErr`
variable of the source is never assigned, so the function always returns
the collected list and never an error. -/
def fetchDetails (getLangs : Repo → Except String (List (String × Nat)))
    (getReadme : Repo → Except String String) (completionOrder : List Repo) :
    Except String (List RawProject) :=
  Except.ok (completionOrder.map (fetchOne getLangs getReadme))

/-! ## Helper lemmas about the heuristic -/

theorem length_setFeaturedFrom (k : Int) (i : Nat) (l : List Project) :
    (setFeaturedFrom k i l).length = l.length := by
  induction l generalizing i with
  | nil => rfl
  | cons p rest ih => simp [setFeaturedFrom, ih]

theorem featured_setFeaturedFrom (k : Int) (i : Nat) (l : List Project) :
    ∀ j (h : j < (setFeaturedFrom k i l).length),
      ((setFeaturedFrom k i l).get ⟨j, h⟩).Featured = decide (((i + j : Nat) : Int) < k) := by
  induction l generalizing i with
  | nil => intro j h; simp [setFeaturedFrom] at h
  | cons p rest ih =>
    intro j h
    cases j with
    | zero => simp [setFeaturedFrom]
    | succ j =>
      have hj : j < (setFeaturedFrom k (i + 1) rest).length := by
        simpa [setFeaturedFrom] using Nat.lt_of_succ_lt_succ (by simpa [setFeaturedFrom] using h)
      have := ih (i + 1) j hj
      have harith : ((i + 1 + j : Nat) : Int) = ((i + (j + 1) : Nat) : Int) := by
        push_cast; ring
      simpa [setFeaturedFrom, harith] using this

theorem countP_setFeaturedFrom (k : Int) (i : Nat) (l : List Project) :
    (setFeaturedFrom k i l).countP (fun p => p.Featured) = min (k - i).toNat l.length := by
  induction l generalizing i with
  | nil => simp [setFeaturedFrom]
  | cons p rest ih =>
    simp only [setFeaturedFrom, List.countP_cons, ih (i + 1)]
    by_cases h : (i : Int) < k
    · simp [h]
      omega
    · simp [h]
      omega

theorem map_pushedAt_setFeaturedFrom (k : Int) (i : Nat) (l : List Project) :
    (setFeaturedFrom k i l).map (fun p => p.PushedAt) = l.map (fun p => p.PushedAt) := by
  induction l generalizing i with
  | nil => rfl
  | cons p rest ih => simp [setFeaturedFrom, ih]

theorem map_eraseFeatured_setFeaturedFrom (k : Int) (i : Nat) (l : List Project) :
    (setFeaturedFrom k i l).map eraseFeatured = l.map eraseFeatured := by
  induction l generalizing i with
  | nil => rfl
  | cons p rest ih => simp [setFeaturedFrom, ih]; rfl

theorem sortByPushedDesc_perm (l : List Project) : (sortByPushedDesc l).Perm l :=
  List.mergeSort_perm l _

theorem sortByPushedDesc_pairwise (l : List Project) :
    List.Pairwise (fun a b : Project => b.PushedAt ≤ a.PushedAt) (sortByPushedDesc l) := by
  have h := List.sorted_mergeSort
    (fun (a b c : Project) (hab : decide (b.PushedAt ≤ a.PushedAt) = true)
        (hbc : decide (c.PushedAt ≤ b.PushedAt) = true) => by
      simp only [decide_eq_true_eq] at hab hbc ⊢
      omega)
    (fun (a b : Project) => by
      simp only [Bool.or_eq_true, decide_eq_true_eq]
      omega)
    l
  exact h.imp (fun hab => by simpa using hab)

/-- C2: For every list of projects and every configured pair (K, N) with
0 ≤ K ≤ N, ApplyFeatured returns a list of length min(N_raw, N), sorted
descending by PushedAt, in which exactly min(K, output length) entries
are featured and they are precisely the entries at indices [0, K). -/
theorem ApplyFeatured_spec (projects : List Project) (K N : Int)
    (hK : 0 ≤ K) (hKN : K ≤ N) :
    (ApplyFeatured projects K N).length = min projects.length N.toNat ∧
    List.Pairwise (fun a b => b ≤ a)
      ((ApplyFeatured projects K N).map (fun p => p.PushedAt)) ∧
    (ApplyFeatured projects K N).countP (fun p => p.Featured) =
      min K.toNat (ApplyFeatured projects K N).length ∧
    ∀ i (h : i < (ApplyFeatured projects K N).length),
      ((ApplyFeatured projects K N).get ⟨i, h⟩).Featured = decide ((i : Int) < K) := by
  have hslen : (sortByPushedDesc projects).length = projects.length :=
    (sortByPushedDesc_perm projects).length_eq
  have hN0 : 0 ≤ N := le_trans hK hKN
  unfold ApplyFeatured
  refine ⟨?_, ?_, ?_, ?_⟩
  · by_cases htr : ((sortByPushedDesc projects).length : Int) > N
    · simp only [if_pos htr]
      rw [length_setFeaturedFrom, List.length_take, hslen]
      rw [hslen] at htr
      omega
    · simp only [if_neg htr]
      rw [length_setFeaturedFrom, hslen]
      rw [hslen] at htr
      omega
  · by_cases htr : ((sortByPushedDesc projects).length : Int) > N
    · simp only [if_pos htr]
      rw [map_pushedAt_setFeaturedFrom]
      exact List.pairwise_map.mpr
        (List.Pairwise.sublist (List.take_sublist _ _) (sortByPushedDesc_pairwise projects))
    · simp only [if_neg htr]
      rw [map_pushedAt_setFeaturedFrom]
      exact List.pairwise_map.mpr (sortByPushedDesc_pairwise projects)
  · rw [countP_setFeaturedFrom, length_setFeaturedFrom]
    omega
  · intro i h
    simpa using featured_setFeaturedFrom K 0 _ i h

/-- Two concrete projects for instantiating the heuristic theorems. -/
def demoProjects : List Project :=
  [⟨"A", "a", "", "", "", "", [], [], false, "", "", 5⟩,
   ⟨"B", "b", "", "", "", "", [], [], false, "", "", 9⟩]

/-- Witness for C2: the selection heuristic at a concrete input. -/
theorem ApplyFeatured_spec_witness :
    (0 : Int) ≤ 1 ∧ (1 : Int) ≤ 2 ∧
    (ApplyFeatured demoProjects 1 2).length = min demoProjects.length (2 : Int).toNat :=
  ⟨by decide, by decide, (ApplyFeatured_spec demoProjects 1 2 (by decide) (by decide)).1⟩

/-- C9: every entry of ApplyFeatured's output equals some entry of the
input with at most its Featured field changed, and the output modulo the
Featured flag is a prefix of a permutation of the input modulo the
Featured flag. -/
theorem ApplyFeatured_frame (projects : List Project) (K N : Int) :
    ∃ l, projects.Perm l ∧
      (ApplyFeatured projects K N).map eraseFeatured
        = (l.map eraseFeatured).take (ApplyFeatured projects K N).length ∧
      ∀ p ∈ ApplyFeatured projects K N, ∃ q ∈ projects, eraseFeatured p = eraseFeatured q := by
  have hperm := sortByPushedDesc_perm projects
  have hmap : (ApplyFeatured projects K N).map eraseFeatured
      = ((sortByPushedDesc projects).map eraseFeatured).take
          (ApplyFeatured projects K N).length := by
    unfold ApplyFeatured
    by_cases htr : ((sortByPushedDesc projects).length : Int) > N
    · simp only [if_pos htr]
      rw [map_eraseFeatured_setFeaturedFrom, length_setFeaturedFrom, ← List.map_take]
      congr 1
      rw [List.take_eq_take]
      simp [List.length_take]
    · simp only [if_neg htr]
      rw [map_eraseFeatured_setFeaturedFrom, length_setFeaturedFrom]
      rw [List.take_of_length_le (by simp)]
  refine ⟨sortByPushedDesc projects, hperm.symm, hmap, ?_⟩
  intro p hp
  have h1 : eraseFeatured p ∈ (sortByPushedDesc projects).map eraseFeatured := by
    have h2 := List.mem_map_of_mem eraseFeatured hp
    rw [hmap] at h2
    exact (List.take_sublist _ _).subset h2
  obtain ⟨q, hq, hqe⟩ := List.mem_map.mp h1
  exact ⟨q, hperm.mem_iff.mp hq, hqe.symm⟩

/-- Witness for C9: the frame property at a concrete input. -/
theorem ApplyFeatured_frame_witness :
    ∃ l, demoProjects.Perm l ∧
      (ApplyFeatured demoProjects 1 2).map eraseFeatured
        = (l.map eraseFeatured).take (ApplyFeatured demoProjects 1 2).length := by
  obtain ⟨l, h1, h2, _⟩ := ApplyFeatured_frame demoProjects 1 2
  exact ⟨l, h1, h2⟩

/-- C6: FilterRepos emits no fork, no archived repo, and no repo whose name
case-insensitively equals the owner identity; the output is the
order-preserving subsequence of the input consisting of exactly the
surviving repos. -/
theorem FilterRepos_spec (repos : List Repo) (username : String) :
    (FilterRepos repos username).Sublist repos ∧
    (∀ r ∈ FilterRepos repos username,
      r.Fork = false ∧ r.Archived = false ∧ strToLower r.Name ≠ strToLower username) ∧
    ∀ r ∈ repos, r.Fork = false → r.Archived = false →
      strToLower r.Name ≠ strToLower username → r ∈ FilterRepos repos username := by
  refine ⟨List.filter_sublist _, ?_, ?_⟩
  · intro r hr
    rw [FilterRepos] at hr
    simp only [List.mem_filter, Bool.and_eq_true, Bool.not_eq_true', Bool.or_eq_false_iff,
      beq_eq_false_iff_ne, ne_eq] at hr
    exact ⟨hr.2.1.1, hr.2.1.2, hr.2.2⟩
  · intro r hr h1 h2 h3
    rw [FilterRepos]
    simp only [List.mem_filter, Bool.and_eq_true, Bool.not_eq_true', Bool.or_eq_false_iff,
      beq_eq_false_iff_ne, ne_eq]
    exact ⟨hr, ⟨h1, h2⟩, h3⟩

/-- One concrete repo used by concrete instantiations below. -/
def demoRepo : Repo :=
  ⟨"tool", "https://github.test/o/tool", none, 10, 50, false, false⟩

/-- Witness for C6: the filter at a concrete input keeps a surviving repo. -/
theorem FilterRepos_spec_witness :
    demoRepo ∈ FilterRepos [demoRepo] "owner" :=
  (FilterRepos_spec [demoRepo] "owner").2.2 demoRepo (by simp) rfl rfl (by decide)

/-- C8: after one append, the stored audit list is the others' entries
preserved verbatim and in order, followed by this service's capped prior
entries (the most recent min(own, 2)), followed by the new entry; in the
concrete 5-own/3-others scenario the list has exactly 6 entries. -/
theorem recordBuildLog_audit_cap (existing : List BuildLogEntry) (entry : BuildLogEntry) :
    buildAuditList existing entry
      = existing.filter (fun x => !(x.Service == serviceName))
        ++ (existing.filter (fun x => x.Service == serviceName)).drop
            ((existing.filter (fun x => x.Service == serviceName)).length - 2)
        ++ [entry] ∧
    (buildAuditList existing entry).length
      = (existing.filter (fun x => !(x.Service == serviceName))).length
        + min (existing.filter (fun x => x.Service == serviceName)).length 2 + 1 ∧
    ((existing.filter (fun x => x.Service == serviceName)).length = 5 →
      (existing.filter (fun x => !(x.Service == serviceName))).length = 3 →
      (buildAuditList existing entry).length = 6) := by
  have heq : buildAuditList existing entry
      = existing.filter (fun x => !(x.Service == serviceName))
        ++ (existing.filter (fun x => x.Service == serviceName)).drop
            ((existing.filter (fun x => x.Service == serviceName)).length - 2)
        ++ [entry] := by
    rw [buildAuditList]
    by_cases hc : (existing.filter (fun x => x.Service == serviceName)).length ≥ 3
    · simp only [if_pos hc, List.append_assoc]
    · have h0 : (existing.filter (fun x => x.Service == serviceName)).length - 2 = 0 := by
        omega
      simp only [if_neg hc, h0, List.drop_zero, List.append_assoc]
  have hlen : (buildAuditList existing entry).length
      = (existing.filter (fun x => !(x.Service == serviceName))).length
        + min (existing.filter (fun x => x.Service == serviceName)).length 2 + 1 := by
    rw [heq]
    simp only [List.length_append, List.length_drop, List.length_singleton]
    omega
  exact ⟨heq, hlen, fun h5 h3 => by rw [hlen, h5, h3]; omega⟩

/-- One concrete audit entry belonging to this service. -/
def demoOwnEntry : BuildLogEntry :=
  ⟨"github-cms-sync", "2024-01-01T00:00:00Z", "local", false, false, 1, 10, "success"⟩

/-- One concrete audit entry belonging to another service. -/
def demoOtherEntry : BuildLogEntry :=
  ⟨"other-service", "2024-01-01T00:00:00Z", "local", false, false, 0, 4, "success"⟩

/-- Witness for C8: the 5-own/3-others scenario yields exactly 6 entries. -/
theorem recordBuildLog_audit_cap_witness :
    (buildAuditList
      [demoOwnEntry, demoOtherEntry, demoOwnEntry, demoOwnEntry, demoOtherEntry,
       demoOwnEntry, demoOtherEntry, demoOwnEntry] demoOwnEntry).length = 6 := by
  refine (recordBuildLog_audit_cap
    [demoOwnEntry, demoOtherEntry, demoOwnEntry, demoOwnEntry, demoOtherEntry,
     demoOwnEntry, demoOtherEntry, demoOwnEntry] demoOwnEntry).2.2 ?_ ?_ <;>
    simp [demoOwnEntry, demoOtherEntry, serviceName]

/-- Trivial evaluation fact used when a language fetch fails. -/
theorem sortedLanguages_nil : sortedLanguages [] = [] := by
  simp [sortedLanguages]

/-- C7: fetchDetails produces exactly one RawProject per input repo in some
completion order, never drops an entity, substitutes empty data for
failed auxiliary fetches, and never returns an error. -/
theorem fetchDetails_spec (getLangs : Repo → Except String (List (String × Nat)))
    (getReadme : Repo → Except String String) (repos completionOrder : List Repo)
    (hperm : completionOrder.Perm repos) :
    ∃ l, fetchDetails getLangs getReadme completionOrder = Except.ok l ∧
      l.length = repos.length ∧
      (∀ p ∈ l, ∃ r ∈ repos, p = fetchOne getLangs getReadme r) ∧
      (∀ r ∈ repos, fetchOne getLangs getReadme r ∈ l) ∧
      (∀ r e, getLangs r = Except.error e → (fetchOne getLangs getReadme r).Languages = []) ∧
      (∀ r e, getReadme r = Except.error e → (fetchOne getLangs getReadme r).ReadmeRaw = "") := by
  refine ⟨completionOrder.map (fetchOne getLangs getReadme), rfl, ?_, ?_, ?_, ?_, ?_⟩
  · rw [List.length_map]
    exact hperm.length_eq
  · intro p hp
    obtain ⟨r, hr, hre⟩ := List.mem_map.mp hp
    exact ⟨r, hperm.mem_iff.mp hr, hre.symm⟩
  · intro r hr
    exact List.mem_map_of_mem _ (hperm.mem_iff.mpr hr)
  · intro r e he
    simp [fetchOne, he, ToRawProject, sortedLanguages_nil]
  · intro r e he
    simp [fetchOne, he, ToRawProject]

/-- Witness for C7: detail collection at a concrete input. -/
theorem fetchDetails_spec_witness :
    ∃ l, fetchDetails (fun _ => Except.error "boom") (fun _ => Except.error "boom")
        [demoRepo] = Except.ok l ∧ l.length = 1 := by
  obtain ⟨l, h1, h2, -⟩ := fetchDetails_spec (fun _ => Except.error "boom")
    (fun _ => Except.error "boom") [demoRepo] [demoRepo] (List.Perm.refl _)
  exact ⟨l, h1, h2⟩

/-- C1: given n input projects and an m-entry parsed response, the matched
output has length min(n, m) — so length m when m ≤ n and length n when
m ≥ n (excess response entries ignored) — and output[i] carries input[i]'s
slug, GitHub URL and pushed-at timestamp, response[i]'s generated fields,
and a false featured flag. -/
theorem Enrich_positional (projects : List RawProject) (dataList : List EnrichedData) :
    (dataList.length ≤ projects.length →
      (enrichMatch projects dataList).length = dataList.length) ∧
    (projects.length ≤ dataList.length →
      (enrichMatch projects dataList).length = projects.length) ∧
    ∀ i (hp : i < projects.length) (hd : i < dataList.length),
      ∃ h : i < (enrichMatch projects dataList).length,
        ((enrichMatch projects dataList).get ⟨i, h⟩).Slug = (projects.get ⟨i, hp⟩).Slug ∧
        ((enrichMatch projects dataList).get ⟨i, h⟩).GithubURL
          = (projects.get ⟨i, hp⟩).GitHubURL ∧
        ((enrichMatch projects dataList).get ⟨i, h⟩).PushedAt
          = (projects.get ⟨i, hp⟩).PushedAt ∧
        ((enrichMatch projects dataList).get ⟨i, h⟩).Featured = false ∧
        ((enrichMatch projects dataList).get ⟨i, h⟩).Name = (dataList.get ⟨i, hd⟩).Name ∧
        ((enrichMatch projects dataList).get ⟨i, h⟩).ShortDescription
          = (dataList.get ⟨i, hd⟩).ShortDescription ∧
        ((enrichMatch projects dataList).get ⟨i, h⟩).Description
          = (dataList.get ⟨i, hd⟩).Description ∧
        ((enrichMatch projects dataList).get ⟨i, h⟩).LongDescription
          = (dataList.get ⟨i, hd⟩).LongDescription ∧
        ((enrichMatch projects dataList).get ⟨i, h⟩).Technologies
          = (dataList.get ⟨i, hd⟩).Technologies ∧
        ((enrichMatch projects dataList).get ⟨i, h⟩).Highlights
          = (dataList.get ⟨i, hd⟩).Highlights ∧
        ((enrichMatch projects dataList).get ⟨i, h⟩).Category
          = (dataList.get ⟨i, hd⟩).Category ∧
        ((enrichMatch projects dataList).get ⟨i, h⟩).Gradient
          = (dataList.get ⟨i, hd⟩).Gradient := by
  have hlen : (enrichMatch projects dataList).length
      = min projects.length dataList.length := by
    rw [enrichMatch, List.length_map, List.length_zip]
  refine ⟨fun hm => by omega, fun hn => by omega, ?_⟩
  intro i hp hd
  have h : i < (enrichMatch projects dataList).length := by omega
  have hget : (enrichMatch projects dataList).get ⟨i, h⟩
      = mkEnrichedProject (projects.get ⟨i, hp⟩) (dataList.get ⟨i, hd⟩) := by
    simp only [List.get_eq_getElem, enrichMatch, List.getElem_map, List.getElem_zip]
  exact ⟨h, by rw [hget]; exact ⟨rfl, rfl, rfl, rfl, rfl, rfl, rfl, rfl, rfl, rfl, rfl, rfl⟩⟩

/-- One concrete raw project for instantiating the enricher theorems. -/
def demoRaw : RawProject :=
  ⟨"tool", "tool", "https://github.test/o/tool", "", ["Go"], "readme", 10, 50⟩

/-- One concrete parsed response entry for instantiating the enricher
theorems. -/
def demoData : EnrichedData :=
  ⟨"Tool", "short", "desc", "long", ["Go"], ["fast"], "Backend", "from-slate-500 to-gray-600"⟩

/-- Witness for C1: positional matching at a concrete input with a response
shorter than the input. -/
theorem Enrich_positional_witness :
    (enrichMatch [demoRaw, demoRaw] [demoData]).length = 1 :=
  (Enrich_positional [demoRaw, demoRaw] [demoData]).1 (by decide)

/-- Persistent rate-limit runs of the retry loop: with every attempt
failing rate-limited, each loop iteration makes one call and recurses,
and exhaustion reports the wrapped last error. -/
theorem enrichLoopFrom_rateLimited (gen : Nat → Except String String) (e : Nat → String)
    (hgen : ∀ a, gen a = Except.error (e a)) (hrl : ∀ a, isRateLimit (e a) = true) :
    ∀ fuel attempt calls lastErr,
      enrichLoopFrom gen lastErr calls attempt (fuel + 1) =
        ⟨calls + fuel + 1,
         Except.error ("gemini after " ++ toString maxRetries ++ " retries: "
           ++ e (attempt + fuel))⟩ := by
  intro fuel
  induction fuel with
  | zero =>
    intro attempt calls lastErr
    simp [enrichLoopFrom, hgen attempt, hrl attempt]
  | succ f ih =>
    intro attempt calls lastErr
    rw [enrichLoopFrom]
    rw [hgen attempt]
    simp only [hrl attempt, if_pos]
    rw [ih (attempt + 1) (calls + 1)]
    have h1 : calls + 1 + f + 1 = calls + (f + 1) + 1 := by omega
    have h2 : attempt + 1 + f = attempt + (f + 1) := by omega
    rw [h1, h2]

/-- C3: with every generation call failing, a persistently rate-limited
error makes the retry loop perform exactly maxRetries + 1 = 4 calls and
fail with the retry-count error message, while a non-rate-limit error at
any attempt k (after k rate-limited failures) stops immediately after
that call, with no further attempt. -/
theorem Enrich_retry_policy (gen : Nat → Except String String) (e : Nat → String)
    (hgen : ∀ a, gen a = Except.error (e a)) :
    ((∀ a, isRateLimit (e a) = true) →
      enrichRetry gen =
        ⟨maxRetries + 1,
         Except.error ("gemini after " ++ toString maxRetries ++ " retries: "
           ++ e maxRetries)⟩) ∧
    ∀ k, k ≤ maxRetries → (∀ a, a < k → isRateLimit (e a) = true) →
      isRateLimit (e k) = false →
      enrichRetry gen = ⟨k + 1, Except.error ("gemini: " ++ e k)⟩ := by
  constructor
  · intro hrl
    rw [enrichRetry]
    rw [enrichLoopFrom_rateLimited gen e hgen hrl maxRetries 0 0 none]
    simp
  · intro k hk hbefore hstop
    have hk3 : k ≤ 3 := hk
    interval_cases k
    · rw [enrichRetry]
      show enrichLoopFrom gen none 0 0 (3 + 1) = _
      rw [enrichLoopFrom, hgen 0]
      simp [hstop]
    · rw [enrichRetry]
      show enrichLoopFrom gen none 0 0 (3 + 1) = _
      rw [enrichLoopFrom, hgen 0]
      simp only [hbefore 0 (by omega), if_pos]
      rw [enrichLoopFrom, hgen 1]
      simp [hstop]
    · rw [enrichRetry]
      show enrichLoopFrom gen none 0 0 (3 + 1) = _
      rw [enrichLoopFrom, hgen 0]
      simp only [hbefore 0 (by omega), if_pos]
      rw [enrichLoopFrom, hgen 1]
      simp only [hbefore 1 (by omega), if_pos]
      rw [enrichLoopFrom, hgen 2]
      simp [hstop]
    · rw [enrichRetry]
      show enrichLoopFrom gen none 0 0 (3 + 1) = _
      rw [enrichLoopFrom, hgen 0]
      simp only [hbefore 0 (by omega), if_pos]
      rw [enrichLoopFrom, hgen 1]
      simp only [hbefore 1 (by omega), if_pos]
      rw [enrichLoopFrom, hgen 2]
      simp only [hbefore 2 (by omega), if_pos]
      rw [enrichLoopFrom, hgen 3]
      simp [hstop]

/-- Witness for C3: a persistently rate-limited oracle makes exactly four
calls and reports the retry count. -/
theorem Enrich_retry_policy_witness :
    enrichRetry (fun _ => Except.error "429") =
      ⟨maxRetries + 1,
       Except.error ("gemini after " ++ toString maxRetries ++ " retries: " ++ "429")⟩ :=
  (Enrich_retry_policy (fun _ => Except.error "429") (fun _ => "429")
    (fun _ => rfl)).1 (fun _ => by decide)

/-- Counterexample for C4: an entry whose `content` field exists and is
locale-wrapped, but whose locale value cannot be decoded into the project
collection. GetProjects then returns an error with a nil result, so the
result does not carry the entry's identity and version as the claim
states for every undecodable container. -/
theorem getProjects_decode_counterexample :
    (List.lookup "content"
      (EntryItem.mk (EntrySys.mk "entry1" 7)
        [("content", JsonVal.obj [("en-US", JsonVal.str "oops")])]).Fields).isSome = true ∧
    ((getProjectsFromEntry
      (EntryItem.mk (EntrySys.mk "entry1" 7)
        [("content", JsonVal.obj [("en-US", JsonVal.str "oops")])])).2).isSome = true ∧
    (getProjectsFromEntry
      (EntryItem.mk (EntrySys.mk "entry1" 7)
        [("content", JsonVal.obj [("en-US", JsonVal.str "oops")])])).1 = none :=
  ⟨rfl, rfl, rfl⟩

/-- C4 (amended): an absent container yields an empty collection with
identity and version and no error; a container that is present but not
locale-wrapped yields identity and version together with a decode error;
a locale value that fails to decode into the project collection yields an
error with no result. -/
theorem getProjects_decode_amended (entry : EntryItem) :
    (List.lookup "content" entry.Fields = none →
      getProjectsFromEntry entry
        = (some ⟨[], entry.Sys.ID, entry.Sys.Version, entry.Fields⟩, none)) ∧
    (∀ localeMap, List.lookup "content" entry.Fields = some (JsonVal.obj localeMap) →
      ∀ e, decodeProjects (localeContent localeMap) = Except.error e →
        getProjectsFromEntry entry = (none, some ("unmarshal projects: " ++ e))) ∧
    ∀ v, List.lookup "content" entry.Fields = some v → (∀ m, v ≠ JsonVal.obj m) →
      getProjectsFromEntry entry
        = (some ⟨[], entry.Sys.ID, entry.Sys.Version, entry.Fields⟩,
           some "content field is not locale-wrapped") := by
  refine ⟨?_, ?_, ?_⟩
  · intro h
    simp [getProjectsFromEntry, h]
  · intro localeMap hlm e hdec
    simp [getProjectsFromEntry, hlm, hdec]
  · intro v hv hnm
    rw [getProjectsFromEntry, hv]
    cases v with
    | null => rfl
    | bool b => rfl
    | num n => rfl
    | str s => rfl
    | arr items => rfl
    | obj m => exact absurd rfl (hnm m)

/-- Witness for C4 (amended): a concrete entry with no container field. -/
theorem getProjects_decode_amended_witness :
    getProjectsFromEntry (EntryItem.mk (EntrySys.mk "entry1" 7) [("title", JsonVal.str "x")])
      = (some ⟨[], "entry1", 7, [("title", JsonVal.str "x")]⟩, none) :=
  (getProjects_decode_amended
    (EntryItem.mk (EntrySys.mk "entry1" 7) [("title", JsonVal.str "x")])).1 rfl

/-- Lookup is unchanged by filtering away bindings of a different key. -/
theorem lookup_filter_ne (m : List (String × JsonVal)) (k c : String) (h : k ≠ c) :
    List.lookup k (m.filter (fun p => !(p.1 == c))) = List.lookup k m := by
  induction m with
  | nil => rfl
  | cons p rest ih =>
    obtain ⟨a, b⟩ := p
    rw [List.filter_cons]
    by_cases hp : a = c
    · subst hp
      rw [if_neg (by simp)]
      rw [ih, List.lookup_cons]
      have hk : (k == a) = false := beq_eq_false_iff_ne.mpr h
      simp [hk]
    · rw [if_pos (by simp [hp])]
      rw [List.lookup_cons, List.lookup_cons]
      cases hab : k == a with
      | true => rfl
      | false => exact ih

/-- C5: the write body of UpdateProjects round-trips every field other
than `content` untouched, replaces only `content` with the new collection
under the `en-US` write key, carries the previously-read version in the
`X-Contentful-Version` precondition header, and turns any non-200
response into an error carrying the status code and response body. -/
theorem UpdateProjects_frame (result : ProjectsResult) (projects : List Project)
    (token : String) :
    (∀ k, k ≠ "content" →
      List.lookup k (buildUpdateFields result projects) = List.lookup k result.RawFields) ∧
    List.lookup "content" (buildUpdateFields result projects)
      = some (JsonVal.obj [("en-US", JsonVal.arr (projects.map encodeProject))]) ∧
    List.lookup "X-Contentful-Version" (updateHeaders token result)
      = some (toString result.Version) ∧
    ∀ status body dv, status ≠ 200 → updateResponse status body dv
      = Except.error ("CMA update failed (" ++ toString status ++ "): " ++ body) := by
  refine ⟨?_, ?_, ?_, ?_⟩
  · intro k hk
    rw [buildUpdateFields, setKey, List.lookup_cons]
    have hkc : (k == "content") = false := beq_eq_false_iff_ne.mpr hk
    simp only [hkc]
    exact lookup_filter_ne result.RawFields k "content" hk
  · rw [buildUpdateFields, setKey, List.lookup_cons]
    simp
  · rfl
  · intro status body dv hst
    rw [updateResponse.eq_def, if_pos hst]

/-- One concrete previously-read result for instantiating the update
theorem. -/
def demoResult : ProjectsResult :=
  ⟨[], "entry1", 7, [("title", JsonVal.str "Projects"), ("content", JsonVal.null)]⟩

/-- Witness for C5: at a concrete previously-read result, an unrelated
field round-trips untouched and a 409 response is surfaced with its
status and body. -/
theorem UpdateProjects_frame_witness :
    List.lookup "title" (buildUpdateFields demoResult [])
      = List.lookup "title" demoResult.RawFields ∧
    updateResponse 409 "Version mismatch" none
      = Except.error ("CMA update failed (" ++ toString (409 : Int) ++ "): "
          ++ "Version mismatch") :=
  ⟨(UpdateProjects_frame demoResult [] "tok").1 "title" (by decide),
   (UpdateProjects_frame demoResult [] "tok").2.2.2 409 "Version mismatch" none (by decide)⟩

/-- An unparseable optional integer variable falls back to its default. -/
theorem envInt_default (env : String → String) (key : String) (d : Int)
    (h : parseAtoi (env key) = none) : envInt env key d = d := by
  rw [envInt]
  split
  · rw [h]
  · rfl

/-- C10: when the four required variables are non-empty, Load succeeds even
if MAX_FEATURED, MAX_PROJECTS or FORCE_UPDATE are set to unparseable
strings; the unparseable values silently become the defaults 5, 15 and
false and are never surfaced as configuration errors. -/
theorem Load_optional_defaults (env : String → String)
    (h1 : env "CONTENTFUL_SPACE_ID" ≠ "") (h2 : env "CONTENTFUL_CMA_TOKEN" ≠ "")
    (h3 : env "CONTENTFUL_ENTRY_ID" ≠ "") (h4 : env "GEMINI_API_KEY" ≠ "") :
    ∃ cfg, Load env = Except.ok cfg ∧
      (parseAtoi (env "MAX_FEATURED") = none → cfg.MaxFeatured = 5) ∧
      (parseAtoi (env "MAX_PROJECTS") = none → cfg.MaxProjects = 15) ∧
      (parseBool (env "FORCE_UPDATE") = none → cfg.ForceUpdate = false) := by
  rw [Load]
  rw [if_neg h1, if_neg h2, if_neg h3, if_neg h4]
  refine ⟨_, rfl, ?_, ?_, ?_⟩
  · intro h
    exact envInt_default env "MAX_FEATURED" 5 h
  · intro h
    exact envInt_default env "MAX_PROJECTS" 15 h
  · intro h
    simp [h]

/-- A concrete environment with valid required variables and unparseable
optional ones. -/
def demoEnv (key : String) : String :=
  if key = "CONTENTFUL_SPACE_ID" then "space1"
  else if key = "CONTENTFUL_CMA_TOKEN" then "tok1"
  else if key = "CONTENTFUL_ENTRY_ID" then "entry1"
  else if key = "GEMINI_API_KEY" then "gem1"
  else if key = "MAX_FEATURED" then "five"
  else if key = "MAX_PROJECTS" then "1x5"
  else if key = "FORCE_UPDATE" then "yes"
  else ""

/-- Witness for C10: Load succeeds on the concrete environment and the
invalid optional values become the defaults. -/
theorem Load_optional_defaults_witness :
    ∃ cfg, Load demoEnv = Except.ok cfg ∧
      cfg.MaxFeatured = 5 ∧ cfg.MaxProjects = 15 ∧ cfg.ForceUpdate = false := by
  obtain ⟨cfg, hok, hf, hp, hb⟩ := Load_optional_defaults demoEnv
    (by decide) (by decide) (by decide) (by decide)
  exact ⟨cfg, hok, hf (by decide), hp (by decide), hb (by decide)⟩
